import Mathlib

/-!
Verification of the membership-directory and metadata-reconciliation core of
the `beginning-go` gossip chat client.

The Go source is shallowly embedded: Go maps become association lists with
Go assignment semantics (`insertKV` replaces the value at an existing key and
otherwise appends a fresh entry; reading an absent key yields the zero value),
Go struct values become Lean structures, Go `nil` pointers become `Option`,
and Go functions with side effects (logging, broadcasting) return their
effects explicitly.  Results of external library calls (zlib finalize,
substrate broadcast) enter as explicit parameters.
-/

namespace BeginningGo

/-- NodeAddress is an alias for strings (client.go). -/
abbrev NodeAddress := String

/-- Model of the external smudge.Node handle: the directory uses it only to
re-derive the transport address (`Node.Address()`). -/
structure Node where
  address : String
deriving DecidableEq

/-- smudge: `Node.Address()` returns the transport address of the node.
Calling it through a `nil` pointer dereferences the node and panics; the nil
pointer itself is modelled as `none : Option Node` at each use site. -/
def Node.Address (n : Node) : String :=
  n.address

/-- ChatClient from client.go: a node back-reference (a Go pointer, hence
`Option`) and the learned username (empty string = unknown). -/
structure ChatClient where
  node : Option Node
  username : String
deriving DecidableEq

/-- The Go zero value of ChatClient: nil node pointer, empty username.  This
is what reading an absent key out of a `map[NodeAddress]ChatClient` yields. -/
def ChatClient.zeroValue : ChatClient :=
  { node := none, username := "" }

/-- Go map read `m[k]` restricted to present keys: first matching entry. -/
def lookupKV {α : Type} : List (String × α) → String → Option α
  | [], _ => none
  | p :: rest, k => if p.1 = k then some p.2 else lookupKV rest k

/-- Go map membership test `_, ok := m[k]`. -/
def containsKV {α : Type} (m : List (String × α)) (k : String) : Bool :=
  (lookupKV m k).isSome

/-- Replace the value stored at key `k` (leaves the key set unchanged). -/
def setKV {α : Type} (m : List (String × α)) (k : String) (v : α) : List (String × α) :=
  m.map (fun p => if p.1 = k then (k, v) else p)

/-- Go map assignment `m[k] = v`: replace the value if `k` is present,
otherwise add a fresh entry. -/
def insertKV {α : Type} (m : List (String × α)) (k : String) (v : α) : List (String × α) :=
  if containsKV m k then setKV m k v else m ++ [(k, v)]

/-- The key set of a Go map, as the list of keys of the association list. -/
def keysKV {α : Type} (m : List (String × α)) : List String :=
  m.map Prod.fst

theorem lookupKV_nil {α : Type} (k : String) : lookupKV ([] : List (String × α)) k = none :=
  rfl

theorem lookupKV_cons {α : Type} (p : String × α) (rest : List (String × α)) (k : String) :
    lookupKV (p :: rest) k = if p.1 = k then some p.2 else lookupKV rest k :=
  rfl

theorem lookupKV_eq_none_of_not_mem {α : Type} (m : List (String × α)) (k : String)
    (h : k ∉ keysKV m) : lookupKV m k = none := by
  induction m with
  | nil => rfl
  | cons p rest ih =>
    have hk : p.1 ≠ k := by
      intro hpk
      exact h (by simp [keysKV, hpk])
    have hrest : k ∉ keysKV rest := by
      intro hmem
      exact h (by simp [keysKV] at hmem ⊢; exact Or.inr hmem)
    simp [lookupKV_cons, hk, ih hrest]

theorem mem_keysKV_of_lookupKV {α : Type} (m : List (String × α)) (k : String) (v : α)
    (h : lookupKV m k = some v) : k ∈ keysKV m := by
  by_contra hmem
  rw [lookupKV_eq_none_of_not_mem m k hmem] at h
  exact Option.noConfusion h

theorem setKV_cons {α : Type} (p : String × α) (rest : List (String × α)) (k : String) (v : α) :
    setKV (p :: rest) k v = (if p.1 = k then (k, v) else p) :: setKV rest k v :=
  rfl

theorem keysKV_cons {α : Type} (p : String × α) (rest : List (String × α)) :
    keysKV (p :: rest) = p.1 :: keysKV rest :=
  rfl

theorem lookupKV_setKV_self {α : Type} (m : List (String × α)) (k : String) (v : α) :
    lookupKV (setKV m k v) k = (lookupKV m k).map (fun _ => v) := by
  induction m with
  | nil => rfl
  | cons p rest ih =>
    by_cases hp : p.1 = k
    · rw [setKV_cons, if_pos hp, lookupKV_cons, lookupKV_cons, hp]
      simp
    · rw [setKV_cons, if_neg hp, lookupKV_cons, lookupKV_cons, if_neg hp, if_neg hp, ih]

theorem lookupKV_setKV_ne {α : Type} (m : List (String × α)) (k : String) (v : α) (a : String)
    (ha : a ≠ k) : lookupKV (setKV m k v) a = lookupKV m a := by
  induction m with
  | nil => rfl
  | cons p rest ih =>
    by_cases hp : p.1 = k
    · have hka : k ≠ a := fun h => ha h.symm
      rw [setKV_cons, if_pos hp, lookupKV_cons, lookupKV_cons, hp]
      simp [if_neg hka, ih]
    · rw [setKV_cons, if_neg hp, lookupKV_cons, lookupKV_cons]
      by_cases hpa : p.1 = a
      · simp [hpa]
      · simp [hpa, ih]

theorem lookupKV_append {α : Type} (m l : List (String × α)) (a : String) :
    lookupKV (m ++ l) a =
      match lookupKV m a with
      | some v => some v
      | none => lookupKV l a := by
  induction m with
  | nil => simp [lookupKV]
  | cons p rest ih =>
    by_cases hp : p.1 = a
    · simp [lookupKV_cons, hp]
    · simp [lookupKV_cons, hp, ih]

theorem lookupKV_insertKV {α : Type} (m : List (String × α)) (k : String) (v : α) (a : String) :
    lookupKV (insertKV m k v) a = if a = k then some v else lookupKV m a := by
  unfold insertKV
  by_cases hc : containsKV m k
  · rw [if_pos hc]
    by_cases ha : a = k
    · subst ha
      rw [lookupKV_setKV_self, if_pos rfl]
      unfold containsKV at hc
      cases hlk : lookupKV m a with
      | none => rw [hlk] at hc; simp at hc
      | some w => simp
    · rw [lookupKV_setKV_ne m k v a ha, if_neg ha]
  · rw [if_neg hc, lookupKV_append]
    by_cases ha : a = k
    · subst ha
      have hnone : lookupKV m a = none := by
        unfold containsKV at hc
        cases hlk : lookupKV m a with
        | none => rfl
        | some w => rw [hlk] at hc; simp at hc
      rw [hnone]
      simp [lookupKV]
    · cases hlk : lookupKV m a with
      | none =>
        have hka : k ≠ a := fun h => ha h.symm
        simp [lookupKV, hka, ha]
      | some w => simp [ha]

theorem keysKV_setKV {α : Type} (m : List (String × α)) (k : String) (v : α) :
    keysKV (setKV m k v) = keysKV m := by
  induction m with
  | nil => rfl
  | cons p rest ih =>
    by_cases hp : p.1 = k
    · rw [setKV_cons, if_pos hp, keysKV_cons, keysKV_cons, ih, hp]
    · rw [setKV_cons, if_neg hp, keysKV_cons, keysKV_cons, ih]

theorem keysKV_insertKV_of_contains {α : Type} (m : List (String × α)) (k : String) (v : α)
    (h : containsKV m k = true) : keysKV (insertKV m k v) = keysKV m := by
  unfold insertKV
  rw [if_pos h]
  exact keysKV_setKV m k v

/-- ClientList from client.go: `map[NodeAddress]ChatClient`, the Membership
Directory. -/
abbrev ClientList := List (NodeAddress × ChatClient)

/-- ChatClient.GetName from client.go: return the username if it is known,
otherwise the address of the node back-reference.  The back-reference is a Go
pointer: on the zero-value ChatClient it is `nil`, and `c.node.Address()`
then dereferences a nil pointer and panics.  The panic outcome is modelled as
`none`; a normally returned name is `some`. -/
def ChatClient.GetName (c : ChatClient) : Option String :=
  if c.username ≠ "" then some c.username
  else c.node.map Node.Address

/-- ClientList.AddClient from client.go: build a fresh ChatClient for the
node (empty username), set the username to `localUsername` when the node is
the local one, and assign it into the map, replacing any existing record. -/
def ClientList.AddClient (localAddress localUsername : String) (cl : ClientList)
    (node : Node) : ClientList :=
  let newClient : ChatClient := { node := some node, username := "" }
  let newClient :=
    if Node.Address node = localAddress then { newClient with username := localUsername }
    else newClient
  insertKV cl (Node.Address node) newClient

/-- Loop body of ClientList.AddUsernames: if the address is already present,
overwrite the stored username with the received one and write the record
back; otherwise leave the list untouched. -/
def addUsernamesStep (acc : ClientList) (p : NodeAddress × String) : ClientList :=
  match lookupKV acc p.1 with
  | some client => insertKV acc p.1 { client with username := p.2 }
  | none => acc

/-- ClientList.AddUsernames from client.go: fold the received batch over the
directory with `addUsernamesStep` and return `nil` (no error).  The Go method
mutates the receiver and returns `error`; here the updated directory is the
first component and the returned error the second (`none` = Go `nil`). -/
def ClientList.AddUsernames (cl : ClientList) (usernames : List (NodeAddress × String)) :
    ClientList × Option String :=
  (usernames.foldl addUsernamesStep cl, none)

/-- Loop body of ClientList.getUsernameMap: record the client's username if
it is non-empty, skip the entry otherwise. -/
def getUsernameMapStep (acc : List (NodeAddress × String)) (p : NodeAddress × ChatClient) :
    List (NodeAddress × String) :=
  if p.2.username ≠ "" then insertKV acc p.1 p.2.username else acc

/-- ClientList.getUsernameMap from client.go: collect every client with a
known (non-empty) username, then add the local address/username pair. -/
def ClientList.getUsernameMap (localAddress localUsername : String) (cl : ClientList) :
    List (NodeAddress × String) :=
  insertKV (cl.foldl getUsernameMapStep []) localAddress localUsername

/-- ClientList.GetMissingUsername from client.go: return the first client
whose username is empty together with `true`; if every username is known,
return the empty address and `false`. -/
def ClientList.GetMissingUsername : ClientList → NodeAddress × Bool
  | [] => ("", false)
  | p :: rest => if p.2.username = "" then (p.1, true) else ClientList.GetMissingUsername rest

/-- Go messageType (an int8): the discriminant of a wire envelope. -/
abbrev messageType := Int

/-- messageTypeChat from message.go (iota + 1). -/
def messageTypeChat : messageType := 1

/-- messageTypeUsernames from message.go. -/
def messageTypeUsernames : messageType := 2

/-- messageTypeUsernameReq from message.go. -/
def messageTypeUsernameReq : messageType := 3

/-- The message struct from message.go.  `Usernames` is a Go map that may be
`nil` (its zero value), hence the `Option`. -/
structure message where
  type : messageType
  Body : String
  Usernames : Option (List (NodeAddress × String))
deriving DecidableEq

/-- One token of the serialized wire form.  The byte-level output of
encoding/json and zlib is abstracted to a token stream: `int`/`nat` tokens
carry numbers, `str` tokens carry field text, `flag` tokens mark whether the
`usernames` map is present (`null` vs a map in the JSON form). -/
inductive Token where
  | int (i : Int)
  | nat (n : Nat)
  | str (s : String)
  | flag (b : Bool)
deriving DecidableEq

/-- The serialized byte stream, as a token list. -/
abbrev Wire := List Token

/-- Model of encoding/json marshalling of the `usernames` map: a `nil` map
serializes as `null` (flag false); a present map serializes its entries. -/
def marshalUsernames : Option (List (NodeAddress × String)) → Wire
  | none => [Token.flag false]
  | some u =>
    Token.flag true :: Token.nat u.length ::
      u.foldr (fun p w => Token.str p.1 :: Token.str p.2 :: w) []

/-- Model of `json.NewEncoder(w).Encode(m)` for the message struct: emit the
three tagged fields in struct order (`type`, `body`, `usernames`). -/
def jsonMarshal (m : message) : Wire :=
  Token.int m.type :: Token.str m.Body :: marshalUsernames m.Usernames

/-- Parse `n` address/username pairs from the token stream. -/
def parsePairs : Nat → Wire → Option (List (NodeAddress × String) × Wire)
  | 0, w => some ([], w)
  | n + 1, Token.str a :: Token.str u :: w =>
    match parsePairs n w with
    | some (l, rest) => some ((a, u) :: l, rest)
    | none => none
  | _ + 1, _ => none

/-- Model of `json.NewDecoder(r).Decode(m)` for the message struct: the
inverse of `jsonMarshal`, failing on any malformed stream. -/
def jsonUnmarshal (w : Wire) : Except String message :=
  match w with
  | [Token.int t, Token.str b, Token.flag false] =>
    Except.ok { type := t, Body := b, Usernames := none }
  | Token.int t :: Token.str b :: Token.flag true :: Token.nat n :: rest =>
    match parsePairs n rest with
    | some (l, []) => Except.ok { type := t, Body := b, Usernames := some l }
    | _ => Except.error "unexpected usernames data"
  | _ => Except.error "unexpected envelope shape"

/-- Model of the zlib stream transform after a successful finalize: a
lossless transform, abstracted as prepending the zlib header byte (0x78). -/
def zlibCompress (w : Wire) : Wire :=
  Token.nat 120 :: w

/-- Model of `zlib.NewReader` + full read: strips the header, failing on a
stream that does not carry it (corrupt input). -/
def zlibDecompress : Wire → Except String Wire
  | Token.nat 120 :: rest => Except.ok rest
  | _ => Except.error "invalid header"

/-- message.Encode from message.go, success path: json-marshal the message
through the zlib writer into the buffer, close the writer, return the buffer
contents. -/
def message.Encode (m : message) : Wire :=
  zlibCompress (jsonMarshal m)

/-- message.Encode with the outcome of `w.Close()` made explicit.  Per the
source comment the compressed bytes might not actually be written until the
writer is closed: when Close fails the buffer holds no finalized stream (the
truncated contents are modelled as the empty wire) and the failure is only
logged (`printError`, the second component); the bytes are returned to the
caller either way and the signature carries no error value. -/
def message.EncodeWith (m : message) (closeErr : Option String) : Wire × List String :=
  match closeErr with
  | none => (message.Encode m, [])
  | some e => ([], ["Failed to close the encoding writer: " ++ e])

/-- message.Decode from message.go: decompress, then json-decode, reporting
the two failures as distinct errors. -/
def message.Decode (data : Wire) : Except String message :=
  match zlibDecompress data with
  | Except.error e => Except.error ("Failed to decompress message: " ++ e)
  | Except.ok w =>
    match jsonUnmarshal w with
    | Except.error e => Except.error ("Failed to decode message: " ++ e)
    | Except.ok m => Except.ok m

/-- The usernames branch of Messenger.OnBroadcast (message.go): reject a nil
or empty batch before calling AddUsernames, otherwise apply it.  The boolean
records whether printError was called. -/
def Messenger.handleUsernames (clients : ClientList)
    (batch : Option (List (NodeAddress × String))) : ClientList × Bool :=
  match batch with
  | none => (clients, true)
  | some u =>
    if u.length = 0 then (clients, true)
    else
      match ClientList.AddUsernames clients u with
      | (cl2, some _) => (cl2, true)
      | (cl2, none) => (cl2, false)

/-- The chat branch of Messenger.OnBroadcast (message.go): read the sender
out of the clients map (an absent key yields the zero-value ChatClient) and
resolve its display name with GetName.  `none` models the nil-pointer panic
inside GetName; `some s` is the name handed to printChatMessage. -/
def Messenger.chatSenderName (clients : ClientList) (senderAddr : NodeAddress) :
    Option String :=
  let sender := (lookupKV clients senderAddr).getD ChatClient.zeroValue
  ChatClient.GetName sender

/-- unicode.IsSpace as used by strings.TrimSpace in Go. -/
def goIsSpace (c : Char) : Bool :=
  c.toNat = 9 ∨ c.toNat = 10 ∨ c.toNat = 11 ∨ c.toNat = 12 ∨ c.toNat = 13 ∨
    c.toNat = 32 ∨ c.toNat = 133 ∨ c.toNat = 160 ∨ c.toNat = 0x1680 ∨
    (0x2000 ≤ c.toNat ∧ c.toNat ≤ 0x200A) ∨ c.toNat = 0x2028 ∨ c.toNat = 0x2029 ∨
    c.toNat = 0x202F ∨ c.toNat = 0x205F ∨ c.toNat = 0x3000

/-- strings.TrimSpace: drop leading and trailing whitespace. -/
def goTrimSpace (s : String) : String :=
  String.mk (((s.data.dropWhile goIsSpace).reverse.dropWhile goIsSpace).reverse)

/-- The observable outcome of SendMessage: transcript lines appended locally
(text with the sender name), the wires broadcast, and the returned error. -/
structure SendOutcome where
  transcript : List (String × String)
  broadcasts : List Wire
  err : Option String
deriving DecidableEq

/-- SendMessage from message.go: trim the text; on an empty result return nil
without doing anything; otherwise print the message locally as coming from
`localUsername` and broadcast a chat envelope with the trimmed text,
returning the broadcast result (`broadcastErr` stands for the value returned
by `smudge.BroadcastBytes`). -/
def SendMessage (localUsername : String) (broadcastErr : Option String)
    (text : String) : SendOutcome :=
  let text := goTrimSpace text
  if text = "" then { transcript := [], broadcasts := [], err := none }
  else
    let msg : message := { type := messageTypeChat, Body := text, Usernames := none }
    { transcript := [(text, localUsername)],
      broadcasts := [message.Encode msg],
      err := broadcastErr }

/-- C1 (code_bug evaluation): a Chat envelope from a sender that is absent
from the Directory does not resolve to the raw sender address.  The map read
yields the zero-value ChatClient (nil node pointer, empty username) and
GetName dereferences the nil node pointer — a panic, modelled as `none` — so
the claimed fallback `some senderAddr` never happens.  The second conjunct
shows the fallback the spec describes does work for a sender that is present
with an empty username. -/
theorem chat_unknown_sender_nil_deref :
    Messenger.chatSenderName [] "10.1.2.3:9999" = none ∧
    Messenger.chatSenderName
        [("10.1.2.3:9999", { node := some { address := "10.1.2.3:9999" }, username := "" })]
        "10.1.2.3:9999" = some "10.1.2.3:9999" := by
  exact ⟨rfl, by decide⟩

/-- C2 (counterexample): on the empty batch, AddUsernames returns the Go
`nil` error, not an error as the claim states. -/
theorem addUsernames_empty_batch_no_error_cex :
    (ClientList.AddUsernames [] []).2 = none :=
  rfl

/-- C2 (amended): AddUsernames never returns an error — it returns `nil` on
every batch, the empty one included — and leaves the Directory unchanged on
an empty batch; the empty/nil-batch error is reported by the broadcast
router (the usernames branch of OnBroadcast), which logs it and skips
AddUsernames entirely. -/
theorem addUsernames_never_errors (cl : ClientList) (us : List (NodeAddress × String)) :
    (ClientList.AddUsernames cl us).2 = none ∧
    (ClientList.AddUsernames cl []).1 = cl ∧
    Messenger.handleUsernames cl (some []) = (cl, true) ∧
    Messenger.handleUsernames cl none = (cl, true) :=
  ⟨rfl, rfl, rfl, rfl⟩

/-- C3 (counterexample): when the zlib finalize fails, Encode returns plain
(empty, truncated) output bytes and only a log line — no error value reaches
the caller, contradicting the claim that the failure surfaces as an encode
error; the returned bytes differ from the successful encoding. -/
theorem encode_close_failure_cex :
    message.EncodeWith { type := 1, Body := "hi", Usernames := none } (some "boom")
      = ([], ["Failed to close the encoding writer: boom"]) ∧
    message.Encode { type := 1, Body := "hi", Usernames := none } ≠ [] := by
  refine ⟨by decide, by decide⟩

/-- C3 (amended): a finalize failure is logged via printError and Encode
still hands its caller the truncated buffer contents; Encode's signature
returns only bytes, so no encode error is surfaced.  The truncated output is
not even decodable (its zlib header is missing). -/
theorem encode_close_failure_only_logged (m : message) (e : String) :
    message.EncodeWith m (some e) = ([], ["Failed to close the encoding writer: " ++ e]) ∧
    (message.EncodeWith m none).1 = message.Encode m ∧
    message.Decode (message.EncodeWith m (some e)).1 =
      Except.error ("Failed to decompress message: " ++ "invalid header") :=
  ⟨rfl, rfl, rfl⟩

/-- C9: a reachability event for an address already present replaces its
record with a fresh one — node back-reference set to the event's node and
the display name reset to empty — except that the local address gets the
local username; all other entries are untouched. -/
theorem addClient_replaces_record (la lu : String) (cl : ClientList) (node : Node)
    (a : NodeAddress) :
    lookupKV (ClientList.AddClient la lu cl node) a =
      (if a = Node.Address node then
        some { node := some node,
               username := if Node.Address node = la then lu else "" }
      else lookupKV cl a) := by
  unfold ClientList.AddClient
  by_cases h : Node.Address node = la
  · simp only [if_pos h]
    rw [lookupKV_insertKV]
  · simp only [if_neg h]
    rw [lookupKV_insertKV]

theorem parsePairs_marshal (u : List (NodeAddress × String)) (rest : Wire) :
    parsePairs u.length
      (u.foldr (fun p w => Token.str p.1 :: Token.str p.2 :: w) [] ++ rest) = some (u, rest) := by
  induction u with
  | nil => rfl
  | cons p t ih => simp [parsePairs, ih]

theorem decode_encode (m : message) : message.Decode (message.Encode m) = Except.ok m := by
  cases m with
  | mk t b us =>
    cases us with
    | none => rfl
    | some u =>
      have h := parsePairs_marshal u []
      rw [List.append_nil] at h
      simp [message.Decode, message.Encode, zlibCompress, zlibDecompress, jsonMarshal,
        marshalUsernames, jsonUnmarshal, h]

theorem foldl_addUsernamesStep_keys (us : List (NodeAddress × String)) (acc : ClientList) :
    keysKV (us.foldl addUsernamesStep acc) = keysKV acc := by
  have hstep : ∀ (acc2 : ClientList) (p : NodeAddress × String),
      keysKV (addUsernamesStep acc2 p) = keysKV acc2 := by
    intro acc2 p
    unfold addUsernamesStep
    cases hl : lookupKV acc2 p.1 with
    | none => rfl
    | some c =>
      have hc : containsKV acc2 p.1 = true := by
        unfold containsKV
        rw [hl]
        rfl
      exact keysKV_insertKV_of_contains acc2 p.1 { c with username := p.2 } hc
  induction us generalizing acc with
  | nil => rfl
  | cons q tl ih => rw [List.foldl_cons, ih, hstep]

theorem addUsernamesStep_node (acc : ClientList) (q : NodeAddress × String) (a : NodeAddress) :
    (lookupKV (addUsernamesStep acc q) a).map ChatClient.node
      = (lookupKV acc a).map ChatClient.node := by
  unfold addUsernamesStep
  cases hl : lookupKV acc q.1 with
  | none => rfl
  | some c =>
    rw [lookupKV_insertKV]
    by_cases ha : a = q.1
    · subst ha
      rw [if_pos rfl, hl]
      rfl
    · rw [if_neg ha]

theorem addUsernamesStep_lookup_ne (acc : ClientList) (q : NodeAddress × String)
    (a : NodeAddress) (ha : a ≠ q.1) :
    lookupKV (addUsernamesStep acc q) a = lookupKV acc a := by
  unfold addUsernamesStep
  cases hl : lookupKV acc q.1 with
  | none => rfl
  | some c => rw [lookupKV_insertKV, if_neg ha]

theorem foldl_addUsernamesStep_node (us : List (NodeAddress × String)) (acc : ClientList)
    (a : NodeAddress) :
    (lookupKV (us.foldl addUsernamesStep acc) a).map ChatClient.node
      = (lookupKV acc a).map ChatClient.node := by
  induction us generalizing acc with
  | nil => rfl
  | cons q tl ih => rw [List.foldl_cons, ih, addUsernamesStep_node]

theorem foldl_addUsernamesStep_not_mem (us : List (NodeAddress × String)) (acc : ClientList)
    (a : NodeAddress) (ha : a ∉ us.map Prod.fst) :
    lookupKV (us.foldl addUsernamesStep acc) a = lookupKV acc a := by
  induction us generalizing acc with
  | nil => rfl
  | cons q tl ih =>
    have h1 : a ≠ q.1 := by
      intro h
      exact ha (by simp [h])
    have h2 : a ∉ tl.map Prod.fst := by
      intro h
      exact ha (by simp at h ⊢; exact Or.inr h)
    rw [List.foldl_cons, ih _ h2, addUsernamesStep_lookup_ne acc q a h1]

theorem foldl_getUsernameMapStep_lookup (cl : ClientList) (acc : List (NodeAddress × String))
    (a : NodeAddress) (hnd : (keysKV cl).Nodup) :
    lookupKV (cl.foldl getUsernameMapStep acc) a =
      (lookupKV cl a).elim (lookupKV acc a)
        (fun c => if c.username = "" then lookupKV acc a else some c.username) := by
  induction cl generalizing acc with
  | nil => rfl
  | cons p rest ih =>
    have hnd2 := List.nodup_cons.mp (show (p.1 :: keysKV rest).Nodup from hnd)
    rw [List.foldl_cons, ih _ hnd2.2]
    by_cases hpa : p.1 = a
    · subst hpa
      have hra : lookupKV rest p.1 = none := lookupKV_eq_none_of_not_mem _ _ hnd2.1
      rw [hra, lookupKV_cons, if_pos rfl]
      unfold getUsernameMapStep
      by_cases hu : p.2.username = ""
      · simp [hu]
      · simp [hu, lookupKV_insertKV]
    · rw [lookupKV_cons, if_neg hpa]
      have hap : a ≠ p.1 := fun h => hpa h.symm
      unfold getUsernameMapStep
      by_cases hu : p.2.username = ""
      · simp [hu]
      · cases hca : lookupKV rest a with
        | none => simp [hca, hu, lookupKV_insertKV, hap]
        | some c => simp [hca, hu, lookupKV_insertKV, hap]

/-- C4: decoding the bytes produced by encoding reproduces the original
envelope, for every envelope whose kind is one of the three valid message
types (Chat, Usernames, UsernameReq) with its payload. -/
theorem decode_encode_roundtrip (m : message)
    (_h : m.type = messageTypeChat ∨ m.type = messageTypeUsernames ∨
      m.type = messageTypeUsernameReq) :
    message.Decode (message.Encode m) = Except.ok m :=
  decode_encode m

/-- C4 witness: the round trip at a concrete IdentityBatch envelope. -/
theorem decode_encode_roundtrip_witness :
    message.Decode (message.Encode
        { type := messageTypeUsernames, Body := "",
          Usernames := some [("1.1.1.1:1", "alice")] })
      = Except.ok
        { type := messageTypeUsernames, Body := "",
          Usernames := some [("1.1.1.1:1", "alice")] } :=
  decode_encode_roundtrip _ (Or.inr (Or.inl rfl))

/-- C5: AddUsernames never inserts new keys — the key list of the directory
is unchanged by any batch — and a batch containing only addresses absent
from the directory leaves the directory entirely unchanged. -/
theorem addUsernames_preserves_keys (cl : ClientList) (us : List (NodeAddress × String)) :
    keysKV ((ClientList.AddUsernames cl us).1) = keysKV cl ∧
    ((∀ p ∈ us, lookupKV cl p.1 = none) → (ClientList.AddUsernames cl us).1 = cl) := by
  constructor
  · exact foldl_addUsernamesStep_keys us cl
  · intro h
    show us.foldl addUsernamesStep cl = cl
    induction us with
    | nil => rfl
    | cons q tl ih =>
      have hq : lookupKV cl q.1 = none := h q (List.mem_cons_self q tl)
      have hstep : addUsernamesStep cl q = cl := by
        unfold addUsernamesStep
        rw [hq]
      rw [List.foldl_cons, hstep]
      exact ih (fun p hp => h p (List.mem_cons_of_mem q hp))

/-- C5 witness: a batch naming only an unknown address preserves the key
list and leaves the concrete directory unchanged. -/
theorem addUsernames_preserves_keys_witness :
    keysKV ((ClientList.AddUsernames
        [("1.1.1.1:1", { node := some { address := "1.1.1.1:1" }, username := "alice" })]
        [("2.2.2.2:2", "bob")]).1)
      = keysKV ([("1.1.1.1:1", { node := some { address := "1.1.1.1:1" }, username := "alice" })] : ClientList) ∧
    (ClientList.AddUsernames
        [("1.1.1.1:1", { node := some { address := "1.1.1.1:1" }, username := "alice" })]
        [("2.2.2.2:2", "bob")]).1
      = [("1.1.1.1:1", { node := some { address := "1.1.1.1:1" }, username := "alice" })] :=
  ⟨(addUsernames_preserves_keys _ _).1,
   (addUsernames_preserves_keys _ _).2 (by decide)⟩

/-- C6: the username map snapshot always maps the local address to the local
username, and at every non-local address it holds exactly the non-empty
stored username of that directory entry — entries with an empty stored name
and addresses outside the directory do not appear. -/
theorem getUsernameMap_spec (la lu : String) (cl : ClientList)
    (hnd : (keysKV cl).Nodup) :
    lookupKV (ClientList.getUsernameMap la lu cl) la = some lu ∧
    ∀ a, a ≠ la →
      lookupKV (ClientList.getUsernameMap la lu cl) a =
        (lookupKV cl a).elim none
          (fun c => if c.username = "" then none else some c.username) := by
  unfold ClientList.getUsernameMap
  constructor
  · rw [lookupKV_insertKV, if_pos rfl]
  · intro a ha
    rw [lookupKV_insertKV, if_neg ha, foldl_getUsernameMapStep_lookup cl [] a hnd]
    cases lookupKV cl a with
    | none => rfl
    | some c => by_cases hu : c.username = "" <;> simp [hu, lookupKV]

/-- C6 witness: the spec scenario — directory {A with empty name, B "bob"},
local C "carol": the snapshot holds C and B but not A. -/
theorem getUsernameMap_spec_witness :
    lookupKV (ClientList.getUsernameMap "C" "carol"
        [("A", { node := some { address := "A" }, username := "" }),
         ("B", { node := some { address := "B" }, username := "bob" })]) "C" = some "carol" ∧
    lookupKV (ClientList.getUsernameMap "C" "carol"
        [("A", { node := some { address := "A" }, username := "" }),
         ("B", { node := some { address := "B" }, username := "bob" })]) "B" = some "bob" ∧
    lookupKV (ClientList.getUsernameMap "C" "carol"
        [("A", { node := some { address := "A" }, username := "" }),
         ("B", { node := some { address := "B" }, username := "bob" })]) "A" = none := by
  refine ⟨(getUsernameMap_spec "C" "carol" _ (by decide)).1, ?_, ?_⟩
  · rw [(getUsernameMap_spec "C" "carol" _ (by decide)).2 "B" (by decide)]
    decide
  · rw [(getUsernameMap_spec "C" "carol" _ (by decide)).2 "A" (by decide)]
    decide

/-- C7: GetMissingUsername reports false exactly when every directory entry
has a non-empty username (so also on the empty directory), and when it
reports true the returned address is a directory key whose stored username
is empty. -/
theorem getMissingUsername_spec (cl : ClientList) (hnd : (keysKV cl).Nodup) :
    ((ClientList.GetMissingUsername cl).2 = false ↔ ∀ p ∈ cl, p.2.username ≠ "") ∧
    ((ClientList.GetMissingUsername cl).2 = true →
      ∃ c, lookupKV cl (ClientList.GetMissingUsername cl).1 = some c ∧ c.username = "") := by
  induction cl with
  | nil =>
    refine ⟨by simp [ClientList.GetMissingUsername], ?_⟩
    intro h
    simp [ClientList.GetMissingUsername] at h
  | cons p rest ih =>
    have hnd2 := List.nodup_cons.mp (show (p.1 :: keysKV rest).Nodup from hnd)
    have ihr := ih hnd2.2
    by_cases hu : p.2.username = ""
    · refine ⟨?_, ?_⟩
      · constructor
        · intro h
          simp [ClientList.GetMissingUsername, hu] at h
        · intro h
          exact absurd hu (h p (List.mem_cons_self p rest))
      · intro _
        refine ⟨p.2, ?_, hu⟩
        simp [ClientList.GetMissingUsername, hu, lookupKV_cons]
    · have hres : ClientList.GetMissingUsername (p :: rest)
          = ClientList.GetMissingUsername rest := by
        simp [ClientList.GetMissingUsername, hu]
      rw [hres]
      refine ⟨?_, ?_⟩
      · rw [ihr.1]
        constructor
        · intro h q hq
          cases List.mem_cons.mp hq with
          | inl he => rw [he]; exact hu
          | inr ht => exact h q ht
        · intro h q hq
          exact h q (List.mem_cons_of_mem p hq)
      · intro htrue
        obtain ⟨c, hc, hcu⟩ := ihr.2 htrue
        have haddr : (ClientList.GetMissingUsername rest).1 ∈ keysKV rest :=
          mem_keysKV_of_lookupKV _ _ _ hc
        have hne : p.1 ≠ (ClientList.GetMissingUsername rest).1 :=
          fun h => hnd2.1 (h ▸ haddr)
        refine ⟨c, ?_, hcu⟩
        rw [lookupKV_cons, if_neg hne]
        exact hc

/-- C7 witness: on a directory in which one entry misses its username, the
found flag is true and the returned address stores an empty username. -/
theorem getMissingUsername_spec_witness :
    ∃ c, lookupKV
        ([("1.1.1.1:1", { node := some { address := "1.1.1.1:1" }, username := "" })] : ClientList)
        (ClientList.GetMissingUsername
          [("1.1.1.1:1", { node := some { address := "1.1.1.1:1" }, username := "" })]).1
      = some c ∧ c.username = "" :=
  (getMissingUsername_spec
    [("1.1.1.1:1", { node := some { address := "1.1.1.1:1" }, username := "" })]
    (by decide)).2 (by decide)

/-- C8: SendMessage trims the input; a blank input is a no-op returning nil,
and any other input appends the trimmed text to the local transcript,
broadcasts a chat envelope whose decoded body is exactly the trimmed text,
and returns the broadcast result to the caller. -/
theorem sendMessage_spec (lu : String) (berr : Option String) (text : String) :
    SendMessage lu berr text =
      (if goTrimSpace text = "" then { transcript := [], broadcasts := [], err := none }
       else
         { transcript := [(goTrimSpace text, lu)],
           broadcasts := [message.Encode
             { type := messageTypeChat, Body := goTrimSpace text, Usernames := none }],
           err := berr }) ∧
    message.Decode (message.Encode
        { type := messageTypeChat, Body := goTrimSpace text, Usernames := none })
      = Except.ok { type := messageTypeChat, Body := goTrimSpace text, Usernames := none } :=
  ⟨rfl, decode_encode _⟩

/-- C10: AddUsernames only touches usernames — the node back-reference seen
at every address is unchanged — and entries whose address is not named in
the batch are entirely unchanged. -/
theorem addUsernames_frame (cl : ClientList) (us : List (NodeAddress × String))
    (a : NodeAddress) :
    (lookupKV ((ClientList.AddUsernames cl us).1) a).map ChatClient.node
      = (lookupKV cl a).map ChatClient.node ∧
    (a ∉ us.map Prod.fst →
      lookupKV ((ClientList.AddUsernames cl us).1) a = lookupKV cl a) :=
  ⟨foldl_addUsernamesStep_node us cl a,
   fun h => foldl_addUsernamesStep_not_mem us cl a h⟩

/-- C10 witness: at an address outside the batch the record is unchanged
(the node back-reference included). -/
theorem addUsernames_frame_witness :
    (lookupKV ((ClientList.AddUsernames
          [("1.1.1.1:1", { node := some { address := "1.1.1.1:1" }, username := "" })]
          [("2.2.2.2:2", "bob")]).1) "1.1.1.1:1").map ChatClient.node
      = (lookupKV
          [("1.1.1.1:1", { node := some { address := "1.1.1.1:1" }, username := "" })]
          "1.1.1.1:1").map ChatClient.node ∧
    lookupKV ((ClientList.AddUsernames
          [("1.1.1.1:1", { node := some { address := "1.1.1.1:1" }, username := "" })]
          [("2.2.2.2:2", "bob")]).1) "1.1.1.1:1"
      = lookupKV
          [("1.1.1.1:1", { node := some { address := "1.1.1.1:1" }, username := "" })]
          "1.1.1.1:1" :=
  ⟨(addUsernames_frame _ _ _).1, (addUsernames_frame _ _ _).2 (by decide)⟩

end BeginningGo
